import Mathlib

/-!
Verification of the temporal feature-engineering and rating pipeline of an
NBA game-prediction program.  The definitions below are a shallow embedding
of the Python sources: `feature_engineer.py` (batch rolling features),
`predictor.py` (query-mode rolling features and the day-of orchestrator),
`elo.py` (the rating engine), `backtest.py` (expanding-window validation)
and `db.py` (filtered, ordered queries and upsert persistence).  Machine
floats are modelled as exact rationals or reals; SQLite rows become Lean
structures; the database becomes an explicit list of rows.
-/

/-- The box-score row of one team for one game (table `game_logs` in `db.py`).
Numeric statistics are modelled as rationals. -/
structure GameLog where
  game_date : Nat
  season : Nat
  team_id : Nat
  wl : Bool
  pts : ℚ
  fga : ℚ
  oreb : ℚ
  tov : ℚ
  fta : ℚ
  plus_minus : ℚ
  fg_pct : ℚ
  fg3_pct : ℚ
  ft_pct : ℚ
  reb : ℚ
  ast : ℚ
deriving DecidableEq, Repr

/-- `pts_allowed = pts - plus_minus` (both computation modes). -/
def ptsAllowed (g : GameLog) : ℚ := g.pts - g.plus_minus

/-- Possession estimate `fga - oreb + tov + 0.44 * fta`. -/
def poss (g : GameLog) : ℚ := g.fga - g.oreb + g.tov + (44 / 100) * g.fta

/-- `off_rating = 100 * pts / poss`, substituting 100 when `poss ≤ 0`. -/
def offRating (g : GameLog) : ℚ := if 0 < poss g then g.pts / poss g * 100 else 100

/-- `def_rating = 100 * pts_allowed / poss`, substituting 100 when `poss ≤ 0`. -/
def defRating (g : GameLog) : ℚ :=
  if 0 < poss g then ptsAllowed g / poss g * 100 else 100

/-- `net_rating = off_rating - def_rating`. -/
def netRating (g : GameLog) : ℚ := offRating g - defRating g

/-- The eleven statistics whose trailing means feed the feature vector. -/
inductive Stat where
  | off_rating | def_rating | net_rating | fg_pct | fg3_pct | ft_pct
  | reb | ast | tov | pts | pts_allowed
deriving DecidableEq, Repr

/-- The per-game value of each rolled statistic. -/
def statVal : Stat → GameLog → ℚ
  | .off_rating, g => offRating g
  | .def_rating, g => defRating g
  | .net_rating, g => netRating g
  | .fg_pct, g => g.fg_pct
  | .fg3_pct, g => g.fg3_pct
  | .ft_pct, g => g.ft_pct
  | .reb, g => g.reb
  | .ast, g => g.ast
  | .tov, g => g.tov
  | .pts, g => g.pts
  | .pts_allowed, g => ptsAllowed g

/-- `ROLLING_WINDOW` from `config.py`. -/
def ROLLING_WINDOW : Nat := 10

/-- The last `n` elements of a list (`DataFrame.tail(n)`). -/
def lastN (n : Nat) (l : List GameLog) : List GameLog := l.drop (l.length - n)

/-- Mean of one statistic over the most recent `ROLLING_WINDOW` games of `l`. -/
def rollMean (s : Stat) (l : List GameLog) : ℚ :=
  ((lastN ROLLING_WINDOW l).map (statVal s)).sum / ((lastN ROLLING_WINDOW l).length : ℚ)

/-- One step of the batch-mode streak accumulation
(`max(current_streak, 0) + 1` on a win, `min(current_streak, 0) - 1` on a loss). -/
def streakStep (w : Bool) (s : Int) : Int := if w then max s 0 + 1 else min s 0 - 1

/-- Batch-mode streak: a forward fold of `streakStep` over the win/loss list. -/
def batchStreakAux (s : Int) : List Bool → Int
  | [] => s
  | w :: r => batchStreakAux (streakStep w s) r

/-- Query-mode streak loop of `_compute_team_rolling`: walk the win/loss list
most-recent-first, extend while the sign is unchanged, stop at the first flip. -/
def queryStreakAux (s : Int) : List Bool → Int
  | [] => s
  | w :: r =>
    if s = 0 then queryStreakAux (if w then 1 else -1) r
    else if 0 < s ∧ w = true then queryStreakAux (s + 1) r
    else if s < 0 ∧ w = false then queryStreakAux (s - 1) r
    else s

/-- Order used by `ORDER BY game_date` and `sort_values("game_date")`. -/
def dateLe (a b : GameLog) : Prop := a.game_date ≤ b.game_date

instance : DecidableRel dateLe := fun a b => Nat.decLe a.game_date b.game_date

/-- Stable sort of game rows by date. -/
def sortByDate (l : List GameLog) : List GameLog := l.insertionSort dateLe

/-- The per-(team, as-of-date) rolling snapshot: trailing means of the eleven
statistics, signed streak, cumulative win fraction, rest days, back-to-back. -/
structure Snapshot where
  roll : Stat → ℚ
  win_streak : Int
  season_win_pct : ℚ
  rest_days : Int
  b2b : Bool

/-- Date of the last row of `l` (0 when empty; only used on nonempty lists). -/
def lastDate (l : List GameLog) : Nat := ((l.getLast?).map (·.game_date)).getD 0

/-- Query-mode rolling computation (`_compute_team_rolling` in `predictor.py`):
keep the games strictly before `d`, sort by date, require at least 3, then take
trailing means over the last `ROLLING_WINDOW` games, the signed streak over the
whole prior history, cumulative win fraction, rest days since the last game,
and the back-to-back flag. -/
def computeTeamRolling (hist : List GameLog) (d : Nat) : Option Snapshot :=
  let logs := sortByDate (hist.filter (fun g => g.game_date < d))
  if logs.length < 3 then none
  else some
    { roll := fun s => rollMean s logs
      win_streak := queryStreakAux 0 ((logs.map (·.wl)).reverse)
      season_win_pct := ((logs.countP (·.wl)) : ℚ) / (logs.length : ℚ)
      rest_days := (d : Int) - (lastDate logs : Int)
      b2b := decide ((d : Int) - (lastDate logs : Int) ≤ 1) }

/-- `get_team_game_logs` in `db.py`: the stored rows of one team strictly
before a date, ordered by date. -/
def get_team_game_logs (store : List GameLog) (team : Nat) (d : Nat) : List GameLog :=
  sortByDate (store.filter (fun g => g.team_id = team ∧ g.game_date < d))

/-- Query mode run against the store, as `predictor.py` does. -/
def computeTeamRollingFromStore (store : List GameLog) (team : Nat) (d : Nat) :
    Option Snapshot :=
  computeTeamRolling (get_team_game_logs store team d) d

/-- Batch-mode rolling mean at row `k` of the chronological history of one team:
`shift(1).rolling(window=ROLLING_WINDOW, min_periods=3).mean()`, i.e. the mean
of the statistic over the up-to-10 games before row `k`, defined only when at
least 3 prior games exist. -/
def batchRoll (s : Stat) (hist : List GameLog) (k : Nat) : Option ℚ :=
  if 3 ≤ k then some (rollMean s (hist.take k)) else none

/-- Batch-mode signed win streak at row `k` (forward accumulation over the
shifted win indicator in `build_game_features_df`). -/
def batchStreak (hist : List GameLog) (k : Nat) : Int :=
  batchStreakAux 0 ((hist.take k).map (·.wl))

/-- Batch-mode cumulative win fraction at row `k`:
`cum_wins.shift / cum_games`, defaulting to 0.5 with no prior games. -/
def batchWinPct (hist : List GameLog) (k : Nat) : ℚ :=
  if 0 < k then (((hist.take k).countP (·.wl)) : ℚ) / (k : ℚ) else 1 / 2

/-- The date at row `k` of a history (0 past the end; used within bounds). -/
def dateAt (hist : List GameLog) (k : Nat) : Nat :=
  ((hist.get? k).map (·.game_date)).getD 0

/-- Batch-mode rest days at row `k`: days since the previous row, with the
missing value of the first row filled with 3. -/
def batchRest (hist : List GameLog) (k : Nat) : Int :=
  if k = 0 then 3 else (dateAt hist k : Int) - (dateAt hist (k - 1) : Int)

/-- Batch-mode back-to-back flag at row `k`. -/
def batchB2b (hist : List GameLog) (k : Nat) : Bool :=
  decide (batchRest hist k ≤ 1)

/-- C2 and C8/C10 use this predicate: the rows strictly before the cutoff. -/
def priorRows (hist : List GameLog) (d : Nat) : List GameLog :=
  hist.filter (fun g => g.game_date < d)

theorem sortByDate_perm (l : List GameLog) : List.Perm (sortByDate l) l :=
  List.perm_insertionSort dateLe l

theorem sortByDate_length (l : List GameLog) : (sortByDate l).length = l.length :=
  (sortByDate_perm l).length_eq

/-- C2 helper: appending rows dated at or after the cutoff leaves the
filtered prior history unchanged. -/
theorem filter_append_late (store extra : List GameLog) (team : Nat) (d : Nat)
    (h : ∀ g ∈ extra, d ≤ g.game_date) :
    (store ++ extra).filter (fun g => decide (g.team_id = team ∧ g.game_date < d))
      = store.filter (fun g => decide (g.team_id = team ∧ g.game_date < d)) := by
  rw [List.filter_append]
  have hnil : extra.filter (fun g => decide (g.team_id = team ∧ g.game_date < d)) = [] := by
    rw [List.filter_eq_nil_iff]
    intro g hg
    have := h g hg
    simp only [decide_eq_true_eq, not_and]
    intro _
    omega
  rw [hnil, List.append_nil]

/-- C2: the rolling snapshot as of date `d` is a pure function of the rows
dated strictly before `d`: appending any rows dated `≥ d` to the store leaves
the query-mode output unchanged, for every team and every cutoff. -/
theorem leakage_freedom (store extra : List GameLog) (team : Nat) (d : Nat)
    (h : ∀ g ∈ extra, d ≤ g.game_date) :
    computeTeamRollingFromStore (store ++ extra) team d
      = computeTeamRollingFromStore store team d := by
  unfold computeTeamRollingFromStore get_team_game_logs
  rw [filter_append_late store extra team d h]

/-- A concrete game-log row used by witnesses. -/
def mkLog (d sea team : Nat) (w : Bool) (p : ℚ) : GameLog :=
  { game_date := d, season := sea, team_id := team, wl := w, pts := p,
    fga := 80, oreb := 10, tov := 12, fta := 20, plus_minus := 5,
    fg_pct := 1/2, fg3_pct := 1/3, ft_pct := 3/4, reb := 40, ast := 25 }

/-- C2 witness: a concrete store, with one future-dated appended row. -/
theorem leakage_freedom_witness :
    (∀ g ∈ [mkLog 9 0 1 true 100], 9 ≤ g.game_date)
    ∧ computeTeamRollingFromStore ([mkLog 1 0 1 true 100] ++ [mkLog 9 0 1 true 100]) 1 9
      = computeTeamRollingFromStore [mkLog 1 0 1 true 100] 1 9 :=
  ⟨by decide, leakage_freedom [mkLog 1 0 1 true 100] _ 1 9 (by decide)⟩

/-- C8: query mode signals "insufficient data" (returns `none`) exactly when
fewer than 3 games precede the cutoff, and the batch rolling mean is undefined
at row `k` exactly when fewer than 3 prior games exist (`k < 3`), so such rows
are excluded from training (`dropna`) and skipped in live prediction. -/
theorem insufficient_data_iff :
    (∀ hist d, computeTeamRolling hist d = none ↔ (priorRows hist d).length < 3)
    ∧ (∀ s hist k, batchRoll s hist k = none ↔ k < 3) := by
  constructor
  · intro hist d
    simp only [computeTeamRolling, priorRows, sortByDate_length]
    by_cases h : (hist.filter (fun g => g.game_date < d)).length < 3
    · simp [h]
    · simp [h]
  · intro s hist k
    unfold batchRoll
    by_cases h : 3 ≤ k
    · simp [h, Nat.not_lt.mpr h]
    · simp [h, Nat.lt_of_not_le h]

theorem queryStreakAux_pos (r : List Bool) : ∀ s : Int, 0 < s →
    queryStreakAux s r = s + ((r.takeWhile (· == true)).length : Int) := by
  induction r with
  | nil => intro s _; simp [queryStreakAux]
  | cons w t ih =>
    intro s hs
    cases w
    · simp only [queryStreakAux]
      rw [if_neg (by omega), if_neg (by simp), if_neg (by rintro ⟨h1, _⟩; omega)]
      simp [List.takeWhile_cons]
    · simp only [queryStreakAux]
      rw [if_neg (by omega), if_pos ⟨hs, by trivial⟩, ih (s + 1) (by omega)]
      simp only [List.takeWhile_cons, beq_self_eq_true, if_true, List.length_cons]
      push_cast
      omega

theorem queryStreakAux_neg (r : List Bool) : ∀ s : Int, s < 0 →
    queryStreakAux s r = s - ((r.takeWhile (· == false)).length : Int) := by
  induction r with
  | nil => intro s _; simp [queryStreakAux]
  | cons w t ih =>
    intro s hs
    cases w
    · simp only [queryStreakAux]
      rw [if_neg (by omega), if_neg (by rintro ⟨h1, _⟩; omega), if_pos ⟨hs, by trivial⟩,
        ih (s - 1) (by omega)]
      simp only [List.takeWhile_cons, beq_self_eq_true, if_true, List.length_cons]
      push_cast
      omega
    · simp only [queryStreakAux]
      rw [if_neg (by omega), if_neg (by rintro ⟨h1, h2⟩; omega), if_neg (by simp)]
      simp [List.takeWhile_cons]

theorem queryStreak_cons (w : Bool) (t : List Bool) :
    queryStreakAux 0 (w :: t)
      = if w then 1 + ((t.takeWhile (· == true)).length : Int)
        else -1 - ((t.takeWhile (· == false)).length : Int) := by
  cases w
  · simp only [queryStreakAux, if_pos rfl, Bool.false_eq_true, if_false]
    rw [queryStreakAux_neg t (-1) (by omega)]
    simp
  · simp only [queryStreakAux, if_pos rfl, if_true]
    rw [queryStreakAux_pos t 1 (by omega)]

theorem max_queryStreak_zero (t : List Bool) :
    max (queryStreakAux 0 t) 0 = ((t.takeWhile (· == true)).length : Int) := by
  cases t with
  | nil => simp [queryStreakAux]
  | cons b t2 =>
    rw [queryStreak_cons]
    cases b
    · simp only [Bool.false_eq_true, if_false, List.takeWhile_cons]
      simp
      omega
    · simp only [if_true, List.takeWhile_cons]
      simp
      omega

theorem min_queryStreak_zero (t : List Bool) :
    min (queryStreakAux 0 t) 0 = -(((t.takeWhile (· == false)).length : Int)) := by
  cases t with
  | nil => simp [queryStreakAux]
  | cons b t2 =>
    rw [queryStreak_cons]
    cases b
    · simp only [Bool.false_eq_true, if_false, List.takeWhile_cons]
      simp
      omega
    · simp only [if_true, List.takeWhile_cons]
      simp
      omega

theorem batchStreakAux_append (l : List Bool) (w : Bool) : ∀ s : Int,
    batchStreakAux s (l ++ [w]) = streakStep w (batchStreakAux s l) := by
  induction l with
  | nil => intro s; simp [batchStreakAux]
  | cons b t ih =>
    intro s
    simp only [List.cons_append, batchStreakAux]
    exact ih (streakStep b s)

/-- The forward (batch) streak accumulation and the most-recent-first (query)
streak loop agree on every win/loss history. -/
theorem streak_equiv_rev (r : List Bool) :
    batchStreakAux 0 r.reverse = queryStreakAux 0 r := by
  induction r with
  | nil => simp [batchStreakAux, queryStreakAux]
  | cons w t ih =>
    rw [List.reverse_cons, batchStreakAux_append, ih, queryStreak_cons]
    cases w
    · simp only [streakStep, Bool.false_eq_true, if_false]
      rw [min_queryStreak_zero]
      omega
    · simp only [streakStep, if_true]
      rw [max_queryStreak_zero]
      omega

theorem streak_equiv (l : List Bool) :
    batchStreakAux 0 l = queryStreakAux 0 l.reverse := by
  have h := streak_equiv_rev l.reverse
  rwa [List.reverse_reverse] at h

/-- With strictly increasing dates, the rows dated strictly before the date of
row `k` are exactly the first `k` rows of the history. -/
theorem filter_lt_get_eq_take (hist : List GameLog) :
    ∀ (k : Nat) (hk : k < hist.length),
      hist.Pairwise (fun a b => a.game_date < b.game_date) →
      hist.filter (fun g => g.game_date < (hist.get ⟨k, hk⟩).game_date) = hist.take k := by
  induction hist with
  | nil => intro k hk _; exact absurd hk (by simp)
  | cons g t ih =>
    intro k hk hp
    have hg := (List.pairwise_cons.mp hp).1
    have hpt := (List.pairwise_cons.mp hp).2
    cases k with
    | zero =>
      have hget0 : (g :: t).get ⟨0, hk⟩ = g := rfl
      rw [List.take_zero, hget0]
      apply List.filter_eq_nil_iff.mpr
      intro x hx
      rcases List.mem_cons.mp hx with h | h
      · subst h; simp
      · have hx2 := hg x h
        simp only [decide_eq_true_eq]
        omega
    | succ k =>
      have hk2 : k < t.length := by simpa using hk
      have hget : (g :: t).get ⟨k + 1, hk⟩ = t.get ⟨k, hk2⟩ := rfl
      have hgm : g.game_date < ((g :: t).get ⟨k + 1, hk⟩).game_date := by
        rw [hget]
        exact hg _ (t.get_mem k hk2)
      rw [List.take_succ_cons, List.filter_cons, if_pos (by simpa using hgm)]
      congr 1
      rw [hget]
      exact ih k hk2 hpt

theorem lastDate_take (hist : List GameLog) (k : Nat) (h0 : k ≠ 0)
    (hk : k ≤ hist.length) : lastDate (hist.take k) = dateAt hist (k - 1) := by
  unfold lastDate dateAt
  have hlen : (hist.take k).length = k := by
    rw [List.length_take]
    omega
  rw [List.getLast?_eq_getElem?, hlen, List.getElem?_take_of_lt (by omega : k - 1 < k),
    List.get?_eq_getElem?]

theorem dateAt_eq_get (hist : List GameLog) (k : Nat) (hk : k < hist.length) :
    dateAt hist k = (hist.get ⟨k, hk⟩).game_date := by
  unfold dateAt
  rw [List.get?_eq_getElem?, List.getElem?_eq_getElem hk]
  rfl

/-- C1: train/serve equivalence.  For a team history with strictly increasing
dates, at every row `k` where both modes are defined (at least 3 prior games),
the query-mode snapshot computed with the cutoff equal to the game date of row `k`
agrees with the batch-mode row-`k` values on every field: all eleven rolling
means, the signed win streak, the season win fraction, rest days and the
back-to-back flag. -/
theorem train_serve_equivalence (hist : List GameLog) (k : Nat)
    (hk : k < hist.length)
    (hs : hist.Pairwise (fun a b => a.game_date < b.game_date))
    (h3 : 3 ≤ k) :
    computeTeamRolling hist ((hist.get ⟨k, hk⟩).game_date)
      = some { roll := fun s => rollMean s (hist.take k)
               win_streak := batchStreak hist k
               season_win_pct := batchWinPct hist k
               rest_days := batchRest hist k
               b2b := batchB2b hist k }
    ∧ ∀ s : Stat, batchRoll s hist k = some (rollMean s (hist.take k)) := by
  have hfilter : hist.filter (fun g => g.game_date < (hist.get ⟨k, hk⟩).game_date)
      = hist.take k := filter_lt_get_eq_take hist k hk hs
  have hsorted_take : (hist.take k).Pairwise (fun a b => a.game_date ≤ b.game_date) :=
    (List.Pairwise.sublist (List.take_sublist k hist) hs).imp (fun h => Nat.le_of_lt h)
  have hsort : sortByDate (hist.take k) = hist.take k :=
    List.Sorted.insertionSort_eq hsorted_take
  have hlen : (hist.take k).length = k := by
    rw [List.length_take]
    omega
  have hrest : ((hist.get ⟨k, hk⟩).game_date : Int) - (lastDate (hist.take k) : Int)
      = batchRest hist k := by
    rw [lastDate_take hist k (by omega) (le_of_lt hk)]
    unfold batchRest
    rw [if_neg (by omega), dateAt_eq_get hist k hk]
  constructor
  · simp only [computeTeamRolling, hfilter, hsort]
    rw [if_neg (show ¬ (hist.take k).length < 3 by rw [hlen]; omega)]
    simp only [Option.some.injEq, Snapshot.mk.injEq]
    refine ⟨by trivial, ?_, ?_, hrest, ?_⟩
    · exact (streak_equiv ((hist.take k).map (·.wl))).symm
    · rw [batchWinPct, if_pos (show 0 < k by omega), hlen]
    · rw [hrest]
      rfl
  · intro s
    rw [batchRoll, if_pos h3]

/-- A concrete strictly-dated four-game history for the C1 witness. -/
def hist4 : List GameLog :=
  [mkLog 1 0 1 false 95, mkLog 3 0 1 true 101, mkLog 4 0 1 true 99, mkLog 9 0 1 false 90]

/-- C1 witness at `hist4`, row 3 (cutoff date 9). -/
theorem train_serve_equivalence_witness :
    (3 < hist4.length ∧ hist4.Pairwise (fun a b => a.game_date < b.game_date) ∧ 3 ≤ 3)
    ∧ (computeTeamRolling hist4 9
        = some { roll := fun s => rollMean s (hist4.take 3)
                 win_streak := batchStreak hist4 3
                 season_win_pct := batchWinPct hist4 3
                 rest_days := batchRest hist4 3
                 b2b := batchB2b hist4 3 }
      ∧ ∀ s : Stat, batchRoll s hist4 3 = some (rollMean s (hist4.take 3))) :=
  ⟨⟨by decide, by decide, by decide⟩,
    train_serve_equivalence hist4 3 (by decide) (by decide) (by decide)⟩

/-- Change only the season tag of a row. -/
def seasonRelabel (f : Nat → Nat) (g : GameLog) : GameLog := { g with season := f g.season }

/-- The query-mode season win fraction is the cumulative win fraction of all
stored games strictly before the cutoff, whenever the snapshot is defined. -/
theorem query_win_pct_eq (hist : List GameLog) (d : Nat)
    (h : 3 ≤ (priorRows hist d).length) :
    (computeTeamRolling hist d).map (·.season_win_pct)
      = some ((((priorRows hist d).countP (·.wl)) : ℚ) / ((priorRows hist d).length : ℚ)) := by
  have hp := sortByDate_perm (hist.filter (fun g => g.game_date < d))
  simp only [computeTeamRolling]
  rw [if_neg (by rw [sortByDate_length]; unfold priorRows at h; omega)]
  simp only [Option.map_some']
  unfold priorRows
  rw [hp.countP_eq, hp.length_eq]

/-- C10: in both modes the season win fraction is cumulative over the entire
stored prior history of the team: batch row `k` divides wins among the first `k`
games (all seasons) by `k`, defaulting to 0.5 only at `k = 0`; the query mode
divides wins among all prior games by their count; and neither value depends
on the season tags, i.e. the counters are never reset at a season boundary. -/
theorem season_win_pct_spans_seasons (hist : List GameLog) (d k : Nat) (f : Nat → Nat) :
    (0 < k → batchWinPct hist k = (((hist.take k).countP (·.wl)) : ℚ) / (k : ℚ))
    ∧ batchWinPct hist 0 = 1 / 2
    ∧ batchWinPct (hist.map (seasonRelabel f)) k = batchWinPct hist k
    ∧ (3 ≤ (priorRows hist d).length →
        (computeTeamRolling hist d).map (·.season_win_pct)
          = some ((((priorRows hist d).countP (·.wl)) : ℚ) / ((priorRows hist d).length : ℚ)))
    ∧ (computeTeamRolling (hist.map (seasonRelabel f)) d).map (·.season_win_pct)
        = (computeTeamRolling hist d).map (·.season_win_pct) := by
  have hfm : hist.filter (fun g => g.game_date < d)
      = priorRows hist d := rfl
  have hmap_filter : (hist.map (seasonRelabel f)).filter (fun g => g.game_date < d)
      = (hist.filter (fun g => g.game_date < d)).map (seasonRelabel f) := by
    rw [List.filter_map]
    have hpred : ((fun g : GameLog => decide (g.game_date < d)) ∘ seasonRelabel f)
        = (fun g : GameLog => decide (g.game_date < d)) := by
      funext g
      rfl
    rw [hpred]
  have hcount_map : ∀ l : List GameLog,
      (l.map (seasonRelabel f)).countP (·.wl) = l.countP (·.wl) := by
    intro l
    rw [List.countP_map]
    rfl
  refine ⟨?_, ?_, ?_, query_win_pct_eq hist d, ?_⟩
  · intro h
    rw [batchWinPct, if_pos h]
  · rfl
  · unfold batchWinPct
    rw [← List.map_take, hcount_map]
  · by_cases h3 : 3 ≤ (priorRows hist d).length
    · have h3m : 3 ≤ (priorRows (hist.map (seasonRelabel f)) d).length := by
        unfold priorRows at h3 ⊢
        rw [hmap_filter, List.length_map]
        exact h3
      rw [query_win_pct_eq hist d h3, query_win_pct_eq _ d h3m]
      unfold priorRows
      rw [hmap_filter, hcount_map, List.length_map]
    · have hnone : computeTeamRolling hist d = none := by
        rw [(insufficient_data_iff.1 hist d)]
        omega
      have hnone2 : computeTeamRolling (hist.map (seasonRelabel f)) d = none := by
        rw [(insufficient_data_iff.1 _ d)]
        unfold priorRows at h3 ⊢
        rw [hmap_filter, List.length_map]
        omega
      rw [hnone, hnone2]

/-- C10 witness at `hist4`, `k = 3`, cutoff 9. -/
theorem season_win_pct_spans_seasons_witness :
    (0 < 3 ∧ batchWinPct hist4 3 = (((hist4.take 3).countP (·.wl)) : ℚ) / (3 : ℚ))
    ∧ (3 ≤ (priorRows hist4 9).length
      ∧ (computeTeamRolling hist4 9).map (·.season_win_pct)
          = some ((((priorRows hist4 9).countP (·.wl)) : ℚ)
                    / ((priorRows hist4 9).length : ℚ))) :=
  ⟨⟨by decide, (season_win_pct_spans_seasons hist4 9 3 id).1 (by decide)⟩,
    by decide, (season_win_pct_spans_seasons hist4 9 3 id).2.2.2.1 (by decide)⟩

/-- `ELO_INITIAL` from `config.py`. -/
def ELO_INITIAL : ℝ := 1500

/-- `ELO_K` from `config.py`. -/
def ELO_K : ℝ := 20

/-- `ELO_HOME_ADVANTAGE` from `config.py`. -/
def ELO_HOME_ADVANTAGE : ℝ := 100

/-- `expected_score` in `elo.py`: `1 / (1 + 10 ** ((rating_b - rating_a) / 400))`. -/
noncomputable def expected_score (rating_a rating_b : ℝ) : ℝ :=
  1 / (1 + (10 : ℝ) ^ ((rating_b - rating_a) / 400))

/-- `mov_multiplier` in `elo.py`: `max(abs(margin) ** 0.8 / 10.0, 1.0)`. -/
noncomputable def mov_multiplier (margin : Int) : ℝ :=
  max (|(margin : ℝ)| ^ (0.8 : ℝ) / 10) 1

/-- The Elo rating map of `elo.py`; a team absent from the map reads as
`ELO_INITIAL`. -/
structure EloSystem where
  ratings : Nat → Option ℝ

/-- `EloSystem.get_rating`. -/
def EloSystem.get_rating (e : EloSystem) (t : Nat) : ℝ :=
  (e.ratings t).getD ELO_INITIAL

/-- `EloSystem.update` in `elo.py`: read both ratings, compute the delta, then
write the new home rating followed by the new away rating (the later write wins on a key
collision, as in the Python dict). -/
noncomputable def EloSystem.update (e : EloSystem) (home away : Nat)
    (home_pts away_pts : Int) : EloSystem :=
  let home_elo := e.get_rating home
  let away_elo := e.get_rating away
  let home_expected := expected_score (home_elo + ELO_HOME_ADVANTAGE) away_elo
  let home_actual : ℝ := if away_pts < home_pts then 1 else 0
  let delta := ELO_K * mov_multiplier (home_pts - away_pts) * (home_actual - home_expected)
  { ratings := fun t =>
      if t = away then some (away_elo - delta)
      else if t = home then some (home_elo + delta)
      else e.ratings t }

/-- C5: every update is zero-sum.  For distinct teams, the home rating gain
equals the away rating loss, and the sum of ratings over any set of teams
containing both participants is preserved. -/
theorem elo_update_zero_sum (e : EloSystem) (home away : Nat) (hp ap : Int)
    (hne : home ≠ away) :
    ((e.update home away hp ap).get_rating home - e.get_rating home
      = -((e.update home away hp ap).get_rating away - e.get_rating away))
    ∧ ∀ s : Finset Nat, home ∈ s → away ∈ s →
        (∑ t ∈ s, (e.update home away hp ap).get_rating t)
          = ∑ t ∈ s, e.get_rating t := by
  obtain ⟨δ, h1, h2, h3⟩ :
      ∃ δ : ℝ, (e.update home away hp ap).get_rating home = e.get_rating home + δ
        ∧ (e.update home away hp ap).get_rating away = e.get_rating away - δ
        ∧ ∀ t, t ≠ home → t ≠ away →
            (e.update home away hp ap).get_rating t = e.get_rating t := by
    refine ⟨ELO_K * mov_multiplier (hp - ap)
        * ((if ap < hp then (1:ℝ) else 0)
            - expected_score (e.get_rating home + ELO_HOME_ADVANTAGE) (e.get_rating away)),
      ?_, ?_, ?_⟩
    · show (EloSystem.get_rating _ home) = _
      simp only [EloSystem.update, EloSystem.get_rating]
      rw [if_neg hne, if_pos trivial, Option.getD_some]
    · show (EloSystem.get_rating _ away) = _
      simp only [EloSystem.update, EloSystem.get_rating]
      rw [if_pos trivial, Option.getD_some]
    · intro t ht1 ht2
      simp only [EloSystem.update, EloSystem.get_rating]
      rw [if_neg ht2, if_neg ht1]
  constructor
  · rw [h1, h2]
    ring
  · intro s hh ha
    have hpt : ∀ t ∈ s, (e.update home away hp ap).get_rating t
        = e.get_rating t + ((if t = away then -δ else 0) + (if t = home then δ else 0)) := by
      intro t _
      by_cases t1 : t = away
      · subst t1
        rw [h2, if_pos rfl, if_neg (fun h => hne h.symm)]
        ring
      · by_cases t2 : t = home
        · subst t2
          rw [h1, if_neg t1, if_pos rfl]
          ring
        · rw [h3 t t2 t1, if_neg t1, if_neg t2]
          ring
    rw [Finset.sum_congr rfl hpt, Finset.sum_add_distrib, Finset.sum_add_distrib,
      Finset.sum_ite_eq' s away (fun _ => -δ), Finset.sum_ite_eq' s home (fun _ => δ),
      if_pos ha, if_pos hh]
    ring

/-- The empty rating map, for witnesses. -/
def elo0 : EloSystem := ⟨fun _ => none⟩

/-- C5 witness: a concrete update on the empty map, summed over `{0, 1}`. -/
theorem elo_update_zero_sum_witness :
    ((0:Nat) ≠ 1)
    ∧ ((elo0.update 0 1 108 98).get_rating 0 - elo0.get_rating 0
        = -((elo0.update 0 1 108 98).get_rating 1 - elo0.get_rating 1))
    ∧ ((0:Nat) ∈ ({0, 1} : Finset Nat) ∧ (1:Nat) ∈ ({0, 1} : Finset Nat)
      ∧ (∑ t ∈ ({0, 1} : Finset Nat), (elo0.update 0 1 108 98).get_rating t)
          = ∑ t ∈ ({0, 1} : Finset Nat), elo0.get_rating t) :=
  ⟨by decide, (elo_update_zero_sum elo0 0 1 108 98 (by decide)).1,
    by decide, by decide,
    (elo_update_zero_sum elo0 0 1 108 98 (by decide)).2 {0, 1} (by decide) (by decide)⟩

theorem rpow08_pow_key (x : ℝ) (hx : 0 ≤ x) : (x ^ (0.8:ℝ)) ^ (5:Nat) = x ^ (4:Nat) := by
  rw [← Real.rpow_natCast (x ^ (0.8:ℝ)) 5, ← Real.rpow_mul hx, ← Real.rpow_natCast x 4]
  norm_num

theorem rpow08_lt_of_pow (x y : ℝ) (hx : 0 ≤ x) (hy : 0 ≤ y)
    (h : x ^ (4:Nat) < y ^ (5:Nat)) : x ^ (0.8:ℝ) < y := by
  refine lt_of_pow_lt_pow_left₀ 5 hy ?_
  rw [rpow08_pow_key x hx]
  exact h

theorem lt_rpow08_of_pow (x y : ℝ) (hx : 0 ≤ x) (_hy : 0 ≤ y)
    (h : y ^ (5:Nat) < x ^ (4:Nat)) : y < x ^ (0.8:ℝ) := by
  refine lt_of_pow_lt_pow_left₀ 5 (Real.rpow_nonneg hx _) ?_
  rw [rpow08_pow_key x hx]
  exact h

/-- The floor really extends to margin 17: `m ** 0.8 < 10` for `0 ≤ m ≤ 17`. -/
theorem mov_multiplier_eq_one (m : Int) (h : |m| ≤ 17) : mov_multiplier m = 1 := by
  unfold mov_multiplier
  rw [max_eq_right]
  rw [div_le_one (by norm_num)]
  have h1 : |(m:ℝ)| ≤ 17 := by
    rw [← Int.cast_abs]
    exact_mod_cast h
  calc |(m:ℝ)| ^ (0.8:ℝ) ≤ (17:ℝ) ^ (0.8:ℝ) :=
        Real.rpow_le_rpow (abs_nonneg _) h1 (by norm_num)
    _ ≤ 10 := le_of_lt (rpow08_lt_of_pow 17 10 (by norm_num) (by norm_num) (by norm_num))

/-- Past the floor the multiplier is strictly increasing in `|margin|`. -/
theorem mov_multiplier_strict (m1 m2 : Int) (h17 : 17 ≤ |m1|) (hlt : |m1| < |m2|) :
    mov_multiplier m1 < mov_multiplier m2 := by
  have h18 : 18 ≤ |m2| := by omega
  have hab : |(m1:ℝ)| < |(m2:ℝ)| := by
    rw [← Int.cast_abs, ← Int.cast_abs]
    exact_mod_cast hlt
  have hb18 : (18:ℝ) ≤ |(m2:ℝ)| := by
    rw [← Int.cast_abs]
    exact_mod_cast h18
  have hb_big : (10:ℝ) < |(m2:ℝ)| ^ (0.8:ℝ) := by
    have h0 : (10:ℝ) < (18:ℝ) ^ (0.8:ℝ) :=
      lt_rpow08_of_pow 18 10 (by norm_num) (by norm_num) (by norm_num)
    exact lt_of_lt_of_le h0 (Real.rpow_le_rpow (by norm_num) hb18 (by norm_num))
  have hmono : |(m1:ℝ)| ^ (0.8:ℝ) < |(m2:ℝ)| ^ (0.8:ℝ) :=
    Real.rpow_lt_rpow (abs_nonneg _) hab (by norm_num)
  unfold mov_multiplier
  have hgoal : max (|(m1:ℝ)| ^ (0.8:ℝ) / 10) 1 < |(m2:ℝ)| ^ (0.8:ℝ) / 10 := by
    apply max_lt
    · linarith
    · linarith
  exact lt_of_lt_of_le hgoal (le_max_left _ _)

/-- C4 counterexample: margins 11 and 12 are both beyond the claimed bound 10,
yet the multiplier equals 1.0 at both, so it is not strictly increasing in
`|margin|` beyond 10. -/
theorem mov_multiplier_not_strict_above_ten :
    (10:Int) < |(11:Int)| ∧ |(11:Int)| < |(12:Int)|
    ∧ mov_multiplier 11 = 1 ∧ mov_multiplier 12 = 1 :=
  ⟨by decide, by decide,
    mov_multiplier_eq_one 11 (by decide), mov_multiplier_eq_one 12 (by decide)⟩

/-- C4 (amended): the multiplier equals exactly 1.0 for every integer margin
with `|margin| ≤ 17` (rather than 10), and is strictly increasing in
`|margin|` from 17 on (rather than from 10). -/
theorem mov_multiplier_floor_and_strict (m1 m2 : Int) :
    (|m1| ≤ 17 → mov_multiplier m1 = 1)
    ∧ (17 ≤ |m1| → |m1| < |m2| → mov_multiplier m1 < mov_multiplier m2) :=
  ⟨mov_multiplier_eq_one m1, mov_multiplier_strict m1 m2⟩

/-- C4 witness at the boundary: margin 17 still has multiplier 1, and the
multiplier strictly grows from margin 17 to 18. -/
theorem mov_multiplier_floor_and_strict_witness :
    (|(17:Int)| ≤ 17 ∧ mov_multiplier 17 = 1)
    ∧ (17 ≤ |(17:Int)| ∧ |(17:Int)| < |(18:Int)|
      ∧ mov_multiplier 17 < mov_multiplier 18) :=
  ⟨⟨by decide, (mov_multiplier_floor_and_strict 17 18).1 (by decide)⟩,
    by decide, by decide,
    (mov_multiplier_floor_and_strict 17 18).2 (by decide) (by decide)⟩

/-- One assembled feature-table row as the backtest sees it: its season tag
plus an identifier standing for the rest of the row. -/
structure GameRow where
  season : Nat
  rid : Nat
deriving DecidableEq, Repr

/-- One fold of the expanding-window backtest. -/
structure Fold where
  idx : Nat
  trainRows : List GameRow
  testRows : List GameRow
  testSeason : Nat
deriving DecidableEq, Repr

/-- The body of the loop in `expanding_window_backtest`: train on seasons
`[0..i]`, test on season `i+1`, skipped entirely when the test season
contributes zero rows. -/
def mkFold (games : List GameRow) (seasons : List Nat) (i : Nat) : Option Fold :=
  let trainSeasons := seasons.take (i + 1)
  let testSeason := seasons.getD (i + 1) 0
  let testRows := games.filter (fun g => g.season = testSeason)
  if testRows.isEmpty then none
  else some { idx := i
              trainRows := games.filter (fun g => g.season ∈ trainSeasons)
              testRows := testRows
              testSeason := testSeason }

/-- `expanding_window_backtest` in `backtest.py`: fold indices are
`range(2, len(seasons) - 1)`. -/
def expanding_window_backtest (games : List GameRow) (seasons : List Nat) : List Fold :=
  (List.range' 2 (seasons.length - 3)).filterMap (mkFold games seasons)

theorem nodup_getD_not_mem_take (seasons : List Nat) (hnd : seasons.Nodup)
    (j : Nat) (hj : j < seasons.length) : seasons.getD j 0 ∉ seasons.take j := by
  intro hmem
  have hsplit : seasons.take j ++ seasons.drop j = seasons := List.take_append_drop j seasons
  have hnd2 : (seasons.take j ++ seasons.drop j).Nodup := by
    rw [hsplit]
    exact hnd
  have hdisj := (List.nodup_append.mp hnd2).2.2
  have hval : seasons.getD j 0 = seasons.get ⟨j, hj⟩ := by
    rw [List.getD_eq_getElem?_getD, List.getElem?_eq_getElem hj]
    rfl
  have hmem_drop : seasons.getD j 0 ∈ seasons.drop j := by
    rw [List.drop_eq_getElem_cons hj, hval]
    exact List.mem_cons_self _ _
  exact hdisj hmem hmem_drop

/-- C6: folds of the expanding-window backtest exist only for indices `i ≥ 2`
with `i + 1` a valid season index; fold `i` trains exactly on rows whose
season lies in `S0..Si` and tests exactly on rows of season `S(i+1)`; the test
rows are nonempty (a season with zero test rows yields no fold at all); and,
for distinct season labels, no training row carries the test season. -/
theorem expanding_window_backtest_spec (games : List GameRow) (seasons : List Nat)
    (hnd : seasons.Nodup) :
    (∀ f ∈ expanding_window_backtest games seasons,
        2 ≤ f.idx ∧ f.idx + 1 < seasons.length
        ∧ f.testSeason = seasons.getD (f.idx + 1) 0
        ∧ f.trainRows = games.filter (fun g => g.season ∈ seasons.take (f.idx + 1))
        ∧ f.testRows = games.filter (fun g => g.season = f.testSeason)
        ∧ f.testRows ≠ []
        ∧ ∀ g ∈ f.trainRows, g.season ≠ f.testSeason)
    ∧ (∀ i, 2 ≤ i → i + 1 < seasons.length →
        games.filter (fun g => g.season = seasons.getD (i + 1) 0) = [] →
        ∀ f ∈ expanding_window_backtest games seasons, f.idx ≠ i) := by
  have hmain : ∀ f ∈ expanding_window_backtest games seasons,
      2 ≤ f.idx ∧ f.idx + 1 < seasons.length
      ∧ f.testSeason = seasons.getD (f.idx + 1) 0
      ∧ f.trainRows = games.filter (fun g => g.season ∈ seasons.take (f.idx + 1))
      ∧ f.testRows = games.filter (fun g => g.season = f.testSeason)
      ∧ f.testRows ≠ [] := by
    intro f hf
    obtain ⟨i, hi, hmk⟩ := List.mem_filterMap.mp hf
    obtain ⟨ki, hki, hkv⟩ := List.mem_range'.mp hi
    have hi2 : 2 ≤ i := by omega
    have hi3 : i + 1 < seasons.length := by omega
    unfold mkFold at hmk
    by_cases hempty : (games.filter (fun g => g.season = seasons.getD (i + 1) 0)).isEmpty
    · rw [if_pos hempty] at hmk
      exact absurd hmk (by simp)
    · rw [if_neg hempty] at hmk
      have hf2 := Option.some_injective _ hmk
      subst hf2
      refine ⟨hi2, hi3, rfl, rfl, rfl, ?_⟩
      intro hnil
      exact hempty (List.isEmpty_iff.mpr hnil)
  constructor
  · intro f hf
    obtain ⟨h1, h2, h3, h4, h5, h6⟩ := hmain f hf
    refine ⟨h1, h2, h3, h4, h5, h6, ?_⟩
    intro g hg
    rw [h4] at hg
    have hmem := (List.mem_filter.mp hg).2
    have hmem2 : g.season ∈ seasons.take (f.idx + 1) := by
      simpa using hmem
    intro hcontra
    rw [hcontra, h3] at hmem2
    exact nodup_getD_not_mem_take seasons hnd (f.idx + 1) h2 hmem2
  · intro i _ _ hempty f hf hidx
    obtain ⟨_, _, h3, _, h5, h6⟩ := hmain f hf
    rw [hidx] at h3
    rw [h3] at h5
    rw [hempty] at h5
    exact h6 h5

/-- Concrete seasons for the C6 witness. -/
def seasonsW : List Nat := [0, 1, 2, 3, 4]

/-- Concrete feature rows for the C6 witness. -/
def gamesW : List GameRow := [⟨3, 0⟩, ⟨2, 1⟩, ⟨0, 2⟩]

/-- C6 witness: the fold properties instantiated at a concrete five-season
backtest. -/
theorem expanding_window_backtest_spec_witness :
    seasonsW.Nodup
    ∧ ((∀ f ∈ expanding_window_backtest gamesW seasonsW,
          2 ≤ f.idx ∧ f.idx + 1 < seasonsW.length
          ∧ f.testSeason = seasonsW.getD (f.idx + 1) 0
          ∧ f.trainRows = gamesW.filter (fun g => g.season ∈ seasonsW.take (f.idx + 1))
          ∧ f.testRows = gamesW.filter (fun g => g.season = f.testSeason)
          ∧ f.testRows ≠ []
          ∧ ∀ g ∈ f.trainRows, g.season ≠ f.testSeason)
      ∧ (∀ i, 2 ≤ i → i + 1 < seasonsW.length →
          gamesW.filter (fun g => g.season = seasonsW.getD (i + 1) 0) = [] →
          ∀ f ∈ expanding_window_backtest gamesW seasonsW, f.idx ≠ i)) :=
  ⟨by decide, expanding_window_backtest_spec gamesW seasonsW (by decide)⟩

/-- Outcome of processing one scheduled game inside the `predict_today` loop:
skipped for insufficient data, a persisted prediction, or a raised exception. -/
inductive GameOutcome where
  | skipped
  | ok (p : Nat)
  | exn
deriving DecidableEq, Repr

/-- The per-game loop of `predict_today` as written: the body has no
`try/except`, so a raised exception propagates out of the loop.  The result is
the list of predictions the run persisted and whether it was aborted. -/
def runPredictLoop (step : Nat → GameOutcome) : List Nat → List Nat × Bool
  | [] => ([], false)
  | g :: rest =>
    match step g with
    | .skipped => runPredictLoop step rest
    | .ok p =>
      let r := runPredictLoop step rest
      (p :: r.1, r.2)
    | .exn => ([], true)

/-- A day where processing game 0 raises and game 1 would succeed. -/
def stepDemo : Nat → GameOutcome := fun g => if g = 0 then .exn else .ok g

/-- C3, evaluated at the failing input: with schedule `[0, 1]`, the exception
raised for game 0 aborts the batch, so game 1 — which `stepDemo` would process
successfully — is never processed and its prediction is never persisted. -/
theorem predict_loop_exception_aborts_batch :
    stepDemo 1 = .ok 1
    ∧ runPredictLoop stepDemo [0, 1] = ([], true)
    ∧ 1 ∉ (runPredictLoop stepDemo [0, 1]).1 := by
  decide

/-- A persisted prediction row (table `predictions` in `db.py`); `payload`
stands for the remaining columns. -/
structure Prediction where
  game_id : Nat
  game_date : Nat
  payload : Nat
deriving DecidableEq, Repr

/-- `insert_prediction` in `db.py`: `INSERT OR REPLACE` keyed on the unique
`game_id` — any existing row with the same key is replaced. -/
def insert_prediction (table : List Prediction) (p : Prediction) : List Prediction :=
  table.filter (fun q => q.game_id ≠ p.game_id) ++ [p]

/-- `get_predictions` in `db.py` restricted to one date. -/
def get_predictions (table : List Prediction) (d : Nat) : List Prediction :=
  table.filter (fun q => q.game_date = d)

/-- The computing loop of `predict_today`: each scheduled game either yields
no prediction (skipped) or one that is persisted and appended to the returned
list. -/
def predLoop (step : Nat → Option Prediction) :
    List Nat → List Prediction → List Prediction × List Prediction
  | [], table => ([], table)
  | g :: rest, table =>
    match step g with
    | none => predLoop step rest table
    | some p =>
      let r := predLoop step rest (insert_prediction table p)
      (p :: r.1, r.2)

/-- `predict_today` in `predictor.py` for a fixed date: if any predictions for
the date already exist, return them unchanged without recomputing; otherwise
run the per-game loop and persist its outputs.  The third component records
whether the compute path (schedule fetch, model load, per-game work) ran. -/
def predict_today (today : Nat) (schedule : List Nat)
    (step : Nat → Option Prediction) (table : List Prediction) :
    List Prediction × List Prediction × Bool :=
  let existing := get_predictions table today
  if existing.isEmpty then
    let r := predLoop step schedule table
    (r.1, r.2, true)
  else (existing, table, false)

/-- The predictions table has at most one row per `game_id`. -/
def NodupKeys (table : List Prediction) : Prop := (table.map (·.game_id)).Nodup

theorem insert_prediction_nodupKeys (table : List Prediction) (p : Prediction)
    (h : NodupKeys table) : NodupKeys (insert_prediction table p) := by
  unfold NodupKeys insert_prediction
  rw [List.map_append]
  refine List.Nodup.append ?_ (by simp) ?_
  · exact List.Nodup.sublist (List.Sublist.map _ (List.filter_sublist table)) h
  · intro a ha hb
    obtain ⟨q, hq, rfl⟩ := List.mem_map.mp ha
    have hne := (List.mem_filter.mp hq).2
    simp only [List.map_cons, List.map_nil, List.mem_singleton] at hb
    simp only [decide_eq_true_eq] at hne
    exact hne hb

theorem predLoop_nodupKeys (step : Nat → Option Prediction) :
    ∀ (sched : List Nat) (table : List Prediction),
      NodupKeys table → NodupKeys (predLoop step sched table).2 := by
  intro sched
  induction sched with
  | nil => intro table h; exact h
  | cons g rest ih =>
    intro table h
    cases hg : step g with
    | none =>
      have heq : predLoop step (g :: rest) table = predLoop step rest table := by
        simp [predLoop, hg]
      rw [heq]
      exact ih table h
    | some p =>
      have heq : (predLoop step (g :: rest) table).2
          = (predLoop step rest (insert_prediction table p)).2 := by
        simp [predLoop, hg]
      rw [heq]
      exact ih _ (insert_prediction_nodupKeys table p h)

theorem predLoop_keeps_today (step : Nat → Option Prediction) (today : Nat)
    (hstep : ∀ g p, step g = some p → p.game_date = today) :
    ∀ (sched : List Nat) (table : List Prediction),
      ((∃ q ∈ table, q.game_date = today) ∨ (predLoop step sched table).1 ≠ []) →
      ∃ q ∈ (predLoop step sched table).2, q.game_date = today := by
  intro sched
  induction sched with
  | nil =>
    intro table h
    rcases h with h | h
    · exact h
    · exact absurd rfl h
  | cons g rest ih =>
    intro table h
    cases hg : step g with
    | none =>
      have heq : predLoop step (g :: rest) table = predLoop step rest table := by
        simp [predLoop, hg]
      rw [heq] at h ⊢
      exact ih table h
    | some p =>
      have heq : predLoop step (g :: rest) table
          = (p :: (predLoop step rest (insert_prediction table p)).1,
              (predLoop step rest (insert_prediction table p)).2) := by
        simp [predLoop, hg]
      rw [heq]
      apply ih
      left
      exact ⟨p, List.mem_append_right _ (List.mem_singleton.mpr rfl),
        hstep g p hg⟩

/-- C7 (amended): provided the first invocation persisted at least one
prediction for the date, a second invocation returns exactly the persisted
predictions for that date, leaves the table unchanged, and does not take the
compute path; and the table keeps at most one row per `game_id`. -/
theorem predict_today_idempotent (today : Nat) (schedule : List Nat)
    (step : Nat → Option Prediction) (table : List Prediction)
    (hstep : ∀ g p, step g = some p → p.game_date = today)
    (hfirst : (predict_today today schedule step table).1 ≠ []) :
    (predict_today today schedule step ((predict_today today schedule step table).2.1)
      = (get_predictions ((predict_today today schedule step table).2.1) today,
          (predict_today today schedule step table).2.1, false))
    ∧ (NodupKeys table → NodupKeys ((predict_today today schedule step table).2.1)) := by
  by_cases hex : (get_predictions table today).isEmpty
  · have heq : predict_today today schedule step table
        = ((predLoop step schedule table).1, (predLoop step schedule table).2, true) := by
      simp only [predict_today, hex, if_true]
    rw [heq] at hfirst ⊢
    have hhas : ∃ q ∈ (predLoop step schedule table).2, q.game_date = today :=
      predLoop_keeps_today step today hstep schedule table (Or.inr hfirst)
    have hne2 : ¬ (get_predictions (predLoop step schedule table).2 today).isEmpty := by
      obtain ⟨q, hq, hd⟩ := hhas
      have hmem : q ∈ get_predictions (predLoop step schedule table).2 today :=
        List.mem_filter.mpr ⟨hq, by simpa using hd⟩
      intro hcon
      rw [List.isEmpty_iff] at hcon
      rw [hcon] at hmem
      exact List.not_mem_nil q hmem
    constructor
    · simp [predict_today, hne2]
    · intro hnd
      exact predLoop_nodupKeys step schedule table hnd
  · have heq : predict_today today schedule step table
        = (get_predictions table today, table, false) := by
      simp [predict_today, hex]
    rw [heq]
    constructor
    · simp [predict_today, hex]
    · intro hnd
      exact hnd

/-- A processing step that skips every game, for the C7 counterexample. -/
def stepNone : Nat → Option Prediction := fun _ => none

/-- C7 counterexample: a date whose first invocation persisted nothing (its
one scheduled game was skipped for insufficient data): the second invocation
finds no stored predictions and takes the compute path again, contradicting
the unconditional claim that the second invocation performs no recomputation. -/
theorem predict_today_recomputes_when_empty :
    (predict_today 0 [7] stepNone []).2.1 = []
    ∧ (predict_today 0 [7] stepNone ((predict_today 0 [7] stepNone []).2.1)).2.2 = true := by
  decide

/-- A stored prediction for the C7 witness. -/
def predW : Prediction := ⟨5, 0, 1⟩

/-- C7 witness: with one prediction already persisted for date 0, the second
invocation returns it, changes nothing, and does not recompute. -/
theorem predict_today_idempotent_witness :
    (∀ g p, stepNone g = some p → p.game_date = 0)
    ∧ (predict_today 0 [7] stepNone [predW]).1 ≠ []
    ∧ (predict_today 0 [7] stepNone ((predict_today 0 [7] stepNone [predW]).2.1)
        = (get_predictions ((predict_today 0 [7] stepNone [predW]).2.1) 0,
            (predict_today 0 [7] stepNone [predW]).2.1, false))
    ∧ (NodupKeys [predW] → NodupKeys ((predict_today 0 [7] stepNone [predW]).2.1)) :=
  ⟨fun _ p h => Option.noConfusion h, by decide,
    (predict_today_idempotent 0 [7] stepNone [predW]
      (fun _ p h => Option.noConfusion h) (by decide)).1,
    (predict_today_idempotent 0 [7] stepNone [predW]
      (fun _ p h => Option.noConfusion h) (by decide)).2⟩

/-- The Python column name of each rolled statistic. -/
def statName : Stat → String
  | .off_rating => "off_rating"
  | .def_rating => "def_rating"
  | .net_rating => "net_rating"
  | .fg_pct => "fg_pct"
  | .fg3_pct => "fg3_pct"
  | .ft_pct => "ft_pct"
  | .reb => "reb"
  | .ast => "ast"
  | .tov => "tov"
  | .pts => "pts"
  | .pts_allowed => "pts_allowed"

/-- The `rolling_cols` list written inline inside the `predict_today` loop
(`predictor.py`, lines 123-127). -/
def predictorRollingCols : List Stat :=
  [.off_rating, .def_rating, .net_rating, .fg_pct, .fg3_pct, .ft_pct,
   .reb, .ast, .tov, .pts, .pts_allowed]

/-- The `rolling_cols` list of `build_game_features_df`
(`feature_engineer.py`, lines 35-39). -/
def trainingRollingCols : List Stat :=
  [.off_rating, .def_rating, .net_rating, .fg_pct, .fg3_pct, .ft_pct,
   .reb, .ast, .tov, .pts, .pts_allowed]

/-- `feature_cols` as accumulated by `build_game_features_df`
(lines 143-166): the eleven differentials, the three sums, then Elo and
context columns. -/
def trainingFeatureCols : List String :=
  trainingRollingCols.map (fun c => "diff_" ++ statName c)
  ++ [Stat.pts, Stat.pts_allowed, Stat.off_rating].map (fun c => "sum_" ++ statName c)
  ++ ["elo_diff", "diff_rest_days", "diff_win_streak", "diff_season_win_pct",
      "home_b2b", "away_b2b"]

/-- `get_feature_names` in `feature_engineer.py` (lines 179-192): an
independently written copy of the column list. -/
def get_feature_names : List String :=
  (["off_rating", "def_rating", "net_rating", "fg_pct", "fg3_pct", "ft_pct",
    "reb", "ast", "tov", "pts", "pts_allowed"].map (fun c => "diff_" ++ c))
  ++ (["pts", "pts_allowed", "off_rating"].map (fun c => "sum_" ++ c))
  ++ ["elo_diff", "diff_rest_days", "diff_win_streak", "diff_season_win_pct",
      "home_b2b", "away_b2b"]

/-- Numeric value of a back-to-back flag when fed to a model. -/
def b2bVal (b : Bool) : ℚ := if b then 1 else 0

/-- The feature vector built positionally by the orchestrator loop in
`predict_today` (lines 129-147): differentials over its own `rolling_cols`,
sums over `[pts, pts_allowed, off_rating]`, the Elo differential, then the
rest/streak/win-fraction differentials and the two back-to-back flags. -/
def predictorFeatures (home away : Snapshot) (homeElo awayElo : ℚ) : List ℚ :=
  predictorRollingCols.map (fun c => home.roll c - away.roll c)
  ++ [Stat.pts, Stat.pts_allowed, Stat.off_rating].map
      (fun c => home.roll c + away.roll c)
  ++ [homeElo - awayElo,
      (home.rest_days : ℚ) - (away.rest_days : ℚ),
      (home.win_streak : ℚ) - (away.win_streak : ℚ),
      home.season_win_pct - away.season_win_pct,
      b2bVal home.b2b, b2bVal away.b2b]

/-- The value each named training-table column takes for a pair of snapshots,
as defined by the column constructions of `build_game_features_df`
(lines 143-166). -/
def featureValue (home away : Snapshot) (homeElo awayElo : ℚ) (n : String) : ℚ :=
  if n = "diff_off_rating" then home.roll .off_rating - away.roll .off_rating
  else if n = "diff_def_rating" then home.roll .def_rating - away.roll .def_rating
  else if n = "diff_net_rating" then home.roll .net_rating - away.roll .net_rating
  else if n = "diff_fg_pct" then home.roll .fg_pct - away.roll .fg_pct
  else if n = "diff_fg3_pct" then home.roll .fg3_pct - away.roll .fg3_pct
  else if n = "diff_ft_pct" then home.roll .ft_pct - away.roll .ft_pct
  else if n = "diff_reb" then home.roll .reb - away.roll .reb
  else if n = "diff_ast" then home.roll .ast - away.roll .ast
  else if n = "diff_tov" then home.roll .tov - away.roll .tov
  else if n = "diff_pts" then home.roll .pts - away.roll .pts
  else if n = "diff_pts_allowed" then home.roll .pts_allowed - away.roll .pts_allowed
  else if n = "sum_pts" then home.roll .pts + away.roll .pts
  else if n = "sum_pts_allowed" then home.roll .pts_allowed + away.roll .pts_allowed
  else if n = "sum_off_rating" then home.roll .off_rating + away.roll .off_rating
  else if n = "elo_diff" then homeElo - awayElo
  else if n = "diff_rest_days" then (home.rest_days : ℚ) - (away.rest_days : ℚ)
  else if n = "diff_win_streak" then (home.win_streak : ℚ) - (away.win_streak : ℚ)
  else if n = "diff_season_win_pct" then home.season_win_pct - away.season_win_pct
  else if n = "home_b2b" then b2bVal home.b2b
  else if n = "away_b2b" then b2bVal away.b2b
  else 0

/-- C9: the feature ordering is written independently three times (the
`feature_cols` accumulation of `build_game_features_df`, the copy in
`get_feature_names`, and the inline positional assembly in `predict_today`,
which fetches `get_feature_names()` and never uses it) — not as the single
shared definition the spec requires.  This theorem evaluates the three
independent embeddings and shows they currently coincide: `feature_cols`
equals `get_feature_names()`, and the vector the orchestrator assembles
positionally equals, entry by entry, the value of the correspondingly named
training column, so the duplication causes no train/serve skew as written. -/
theorem feature_contract (home away : Snapshot) (homeElo awayElo : ℚ) :
    trainingFeatureCols = get_feature_names
    ∧ predictorFeatures home away homeElo awayElo
        = trainingFeatureCols.map (featureValue home away homeElo awayElo)
    ∧ (predictorFeatures home away homeElo awayElo).length = trainingFeatureCols.length := by
  refine ⟨by decide, ?_, by rfl⟩
  rfl
